import Mathlib

/-!
# Verification of the glory-pos-app printing subsystem

Shallow embedding, in Lean 4, of the receipt-printing core of the
`glory-pos-app` repository, together with proofs settling the frozen
claims about it.

Embedded components:

* `Enc` — the ESC/POS command encoder (`src/services/printer/ESCPOSEncoder.ts`):
  the layout primitives `twoColumn`, `threeColumn`, `centerText`, `wrap`,
  and the item-row rendering of `generateKOT` / `generateInvoice`.
  JavaScript strings are modelled as `List Char`; the JS string methods the
  source uses (`repeat`, `trim`, `split`, `slice`, `padStart`, `padEnd`)
  are modelled by functions `jsRepeat`, `jsTrim`, `jsSplit`, `jsSlice`,
  `jsPadStart`, `jsPadEnd` with the corresponding JS semantics
  (in particular `" ".repeat(n)` throws a `RangeError` for `n < 0`,
  modelled as `Option.none`).

* `Orch` — the print orchestrator (`src/services/printer/PrinterService.ts`):
  connection state, print queue, per-job execution with retry, and the
  event surface.  The adapter send is abstracted as an outcome parameter
  (success, or failure with an error message), which is the only effect of
  the transport layer visible to the orchestrator logic.

* `Storage` — the profile store (`src/services/printer/PrinterStorage.ts`):
  the persisted profile list and the pure list transformations performed by
  `savePrinter`, `deletePrinter` and `setDefaultPrinter`.

* `Snap` — a small heap model of the orchestrator's state object and its
  `printQueue` array, precise enough to distinguish the shallow copy made
  by `getState` (`{ ...this.state }`) from a deep snapshot.
-/

namespace Enc

/-- JS strings, modelled as lists of characters. -/
abbrev Str := List Char

/-- Whitespace as stripped by JS `String.prototype.trim`
(the characters that can occur in this code base). -/
def jsWs (c : Char) : Bool :=
  c == ' ' || c == '\t' || c == '\n' || c == '\r'

/-- JS `s.trim()`: strip leading and trailing whitespace. -/
def jsTrim (s : Str) : Str :=
  ((s.dropWhile jsWs).reverse.dropWhile jsWs).reverse

/-- JS `s.split(" ")` (single-character separator): split at every
occurrence of the separator; `"".split(" ")` is `[""]`. -/
def jsSplit (s : Str) : List Str :=
  match s with
  | [] => [[]]
  | c :: rest =>
    match jsSplit rest with
    | w :: ws => if c = ' ' then [] :: w :: ws else (c :: w) :: ws
    | [] => [[]]

/-- JS `" ".repeat(n)` where `n` is the (integer-valued) count:
throws a `RangeError` when `n < 0`, modelled as `none`. -/
def jsRepeat (c : Char) (n : Int) : Option Str :=
  if n < 0 then none else some (List.replicate n.toNat c)

/-- JS `s.slice(0, n)` for `n ≥ 0`: the first `n` characters. -/
def jsSlice (s : Str) (n : Nat) : Str := s.take n

/-- JS `s.padEnd(n)`: append spaces up to length `n` (never truncates). -/
def jsPadEnd (s : Str) (n : Nat) : Str :=
  s ++ List.replicate (n - s.length) ' '

/-- JS `s.padStart(n)`: prepend spaces up to length `n` (never truncates). -/
def jsPadStart (s : Str) (n : Nat) : Str :=
  List.replicate (n - s.length) ' ' ++ s

/-- `ESCPOSEncoder.twoColumn` (ESCPOSEncoder.ts:142-146), as the line string
passed to `this.line`:
`space = Math.max(charsPerLine - left.length - right.length, 1)`,
result `left + " ".repeat(space) + right`.  The repeat count is at least 1,
so the `repeat` never throws; `Option` records that fact. -/
def twoColumn (charsPerLine : Nat) (left right : Str) : Option Str :=
  let space : Int := max ((charsPerLine : Int) - left.length - right.length) 1
  (jsRepeat ' ' space).map fun pad => left ++ pad ++ right

/-- `ESCPOSEncoder.threeColumn` (ESCPOSEncoder.ts:149-156):
`remainingSpace = charsPerLine - totalLen`,
`leftSpace = Math.floor(remainingSpace / 2)`,
`rightSpace = remainingSpace - leftSpace`,
result `left + " ".repeat(leftSpace) + center + " ".repeat(rightSpace) + right`.
When `totalLen > charsPerLine` the repeat counts are negative and the JS
code throws a `RangeError`; this is modelled as `none`. -/
def threeColumn (charsPerLine : Nat) (left center right : Str) : Option Str :=
  let totalLen : Int := left.length + center.length + right.length
  let remainingSpace : Int := (charsPerLine : Int) - totalLen
  let leftSpace : Int := Int.fdiv remainingSpace 2
  let rightSpace : Int := remainingSpace - leftSpace
  (jsRepeat ' ' leftSpace).bind fun lpad =>
    (jsRepeat ' ' rightSpace).map fun rpad =>
      left ++ lpad ++ center ++ rpad ++ right

/-- `ESCPOSEncoder.centerText` (ESCPOSEncoder.ts:159-163):
`padding = Math.max(0, Math.floor((charsPerLine - content.length) / 2))`,
result `" ".repeat(padding) + content`.  The count is clamped to 0,
so the repeat never throws. -/
def centerText (charsPerLine : Nat) (content : Str) : Option Str :=
  let padding : Int := max 0 (Int.fdiv ((charsPerLine : Int) - content.length) 2)
  (jsRepeat ' ' padding).map fun pad => pad ++ content

/-- The loop body of `ESCPOSEncoder.wrap` (ESCPOSEncoder.ts:166-180),
recursing over the word list with accumulated flushed `lines` and the
`currentLine`; the trailing `if (currentLine) this.line(currentLine)`
is the base case. -/
def wrapAux (charsPerLine : Nat) (lines : List Str) (currentLine : Str) :
    List Str → List Str
  | [] => if currentLine = [] then lines else lines ++ [currentLine]
  | word :: ws =>
    if (jsTrim (currentLine ++ ' ' :: word)).length ≤ charsPerLine then
      wrapAux charsPerLine lines (jsTrim (currentLine ++ ' ' :: word)) ws
    else
      if currentLine = [] then
        wrapAux charsPerLine lines word ws
      else
        wrapAux charsPerLine (lines ++ [currentLine]) word ws

/-- `ESCPOSEncoder.wrap` on an explicit word list. -/
def wrapWords (charsPerLine : Nat) (words : List Str) : List Str :=
  wrapAux charsPerLine [] [] words

/-- `ESCPOSEncoder.wrap` (ESCPOSEncoder.ts:166-180): the list of line
strings emitted via `this.line`, for `content.split(" ")`. -/
def wrap (charsPerLine : Nat) (content : Str) : List Str :=
  wrapWords charsPerLine (jsSplit content)

end Enc

namespace Enc

theorem jsRepeat_of_nonneg (c : Char) (n : Int) (h : 0 ≤ n) :
    jsRepeat c n = some (List.replicate n.toNat c) := by
  unfold jsRepeat
  rw [if_neg (by omega)]

theorem jsRepeat_of_neg (c : Char) (n : Int) (h : n < 0) :
    jsRepeat c n = none := by
  unfold jsRepeat
  rw [if_pos h]

end Enc

/-- C3: for texts with combined length strictly below the budget, `twoColumn`
renders a line of length exactly the budget with the right text right-justified
(the padding is exactly the missing width); when the combined length meets or
exceeds the budget, both texts appear untruncated separated by a single space. -/
theorem twoColumn_layout (cpl : Nat) (left right : Enc.Str) :
    (left.length + right.length < cpl →
      ∃ out, Enc.twoColumn cpl left right = some out ∧
        out = left ++ List.replicate (cpl - (left.length + right.length)) ' ' ++ right ∧
        out.length = cpl)
    ∧ (cpl ≤ left.length + right.length →
      Enc.twoColumn cpl left right = some (left ++ [' '] ++ right)) := by
  constructor
  · intro h
    have hmax : max ((cpl : Int) - left.length - right.length) 1
        = ((cpl - (left.length + right.length) : Nat) : Int) := by omega
    refine ⟨_, ?_, rfl, ?_⟩
    · simp only [Enc.twoColumn, hmax]
      rw [Enc.jsRepeat_of_nonneg _ _ (by omega)]
      simp
    · simp only [List.length_append, List.length_replicate]
      omega
  · intro h
    have hmax : max ((cpl : Int) - left.length - right.length) 1 = 1 := by omega
    simp only [Enc.twoColumn, hmax]
    rw [Enc.jsRepeat_of_nonneg _ _ (by omega)]
    simp

/-- Witness for `twoColumn_layout` at a concrete input. -/
theorem twoColumn_layout_witness :
    ("ab".data.length + "cd".data.length < 10 ∧
      ∃ out, Enc.twoColumn 10 "ab".data "cd".data = some out ∧
        out = "ab".data ++ List.replicate 6 ' ' ++ "cd".data ∧
        out.length = 10)
    ∧ (6 ≤ "abcd".data.length + "ef".data.length ∧
      Enc.twoColumn 6 "abcd".data "ef".data = some ("abcd".data ++ [' '] ++ "ef".data)) := by
  refine ⟨⟨by decide, ?_⟩, ⟨by decide, ?_⟩⟩
  · exact (twoColumn_layout 10 "ab".data "cd".data).1 (by decide)
  · exact (twoColumn_layout 6 "abcd".data "ef".data).2 (by decide)

/-- C4: when the three texts fit within the budget, `threeColumn` places
`floor(remainder/2)` spaces between columns 1 and 2 and the remaining spaces
between columns 2 and 3; in particular for budget 48 and one-character texts
the gaps are 22 and 23. -/
theorem threeColumn_split (cpl : Nat) (left center right : Enc.Str) :
    (left.length + center.length + right.length ≤ cpl →
      Enc.threeColumn cpl left center right =
        some (left
          ++ List.replicate ((cpl - (left.length + center.length + right.length)) / 2) ' '
          ++ center
          ++ List.replicate ((cpl - (left.length + center.length + right.length))
              - (cpl - (left.length + center.length + right.length)) / 2) ' '
          ++ right))
    ∧ Enc.threeColumn 48 ['A'] ['B'] ['C']
        = some (['A'] ++ List.replicate 22 ' ' ++ ['B'] ++ List.replicate 23 ' ' ++ ['C']) := by
  constructor
  · intro h
    obtain ⟨R, hR⟩ : ∃ R : Nat, cpl - (left.length + center.length + right.length) = R :=
      ⟨_, rfl⟩
    rw [hR]
    have h1 : (cpl : Int) - ((left.length : Int) + center.length + right.length)
        = (R : Int) := by omega
    have h2 : Int.fdiv (R : Int) 2 = ((R / 2 : Nat) : Int) := by
      rw [Int.fdiv_eq_ediv _ (by omega)]
      omega
    have h3 : (R : Int) - ((R / 2 : Nat) : Int) = ((R - R / 2 : Nat) : Int) := by omega
    simp only [Enc.threeColumn, h1, h2, h3]
    rw [Enc.jsRepeat_of_nonneg _ _ (by omega), Enc.jsRepeat_of_nonneg _ _ (by omega)]
    simp
    omega
  · decide

/-- Witness for `threeColumn_split` at a concrete input. -/
theorem threeColumn_split_witness :
    ("ab".data.length + "c".data.length + "de".data.length ≤ 12 ∧
      Enc.threeColumn 12 "ab".data "c".data "de".data =
        some ("ab".data ++ List.replicate 3 ' ' ++ "c".data
          ++ List.replicate 4 ' ' ++ "de".data)) := by
  refine ⟨by decide, ?_⟩
  have h := (threeColumn_split 12 "ab".data "c".data "de".data).1 (by decide)
  simpa using h

/-- C7 counterexample: `threeColumn` is not total.  With budget 32 and texts
of combined length 41, the repeat counts are negative, so the JS code throws
a `RangeError` (modelled as `none`): negative paddings are *not* clamped to
zero in `threeColumn`, refuting the claim that all four layout primitives are
total for texts of any length. -/
theorem threeColumn_not_total_cex :
    Enc.threeColumn 32 (List.replicate 20 'A') ['B'] (List.replicate 20 'C') = none := by
  decide

/-- C7 amended: `twoColumn`, `centerText` and `wrap` are total (their
padding counts are clamped to at least 1 resp. 0, and `wrap` performs no
padding), but `threeColumn` succeeds exactly when the combined text length
does not exceed the line budget; beyond that it throws. -/
theorem encoder_primitives_totality (cpl : Nat) (l c r s : Enc.Str) :
    (Enc.twoColumn cpl l r).isSome = true
    ∧ (Enc.centerText cpl s).isSome = true
    ∧ ((Enc.threeColumn cpl l c r).isSome = true
        ↔ l.length + c.length + r.length ≤ cpl) := by
  refine ⟨?_, ?_, ?_⟩
  · simp only [Enc.twoColumn]
    rw [Enc.jsRepeat_of_nonneg _ _ (by omega)]
    simp
  · simp only [Enc.centerText]
    rw [Enc.jsRepeat_of_nonneg _ _ (by omega)]
    simp
  · constructor
    · intro hs
      by_contra hgt
      have hneg : Int.fdiv ((cpl : Int)
          - ((l.length : Int) + c.length + r.length)) 2 < 0 := by
        rw [Int.fdiv_eq_ediv _ (by omega)]
        omega
      simp only [Enc.threeColumn] at hs
      rw [Enc.jsRepeat_of_neg _ _ hneg] at hs
      simp at hs
    · intro hle
      have h1 : (cpl : Int) - ((l.length : Int) + c.length + r.length)
          = ((cpl - (l.length + c.length + r.length) : Nat) : Int) := by omega
      have h2 : Int.fdiv ((cpl - (l.length + c.length + r.length) : Nat) : Int) 2
          ≥ 0 := by
        rw [Int.fdiv_eq_ediv _ (by omega)]
        omega
      have h2b : Int.fdiv ((cpl - (l.length + c.length + r.length) : Nat) : Int) 2
          ≤ ((cpl - (l.length + c.length + r.length) : Nat) : Int) := by
        rw [Int.fdiv_eq_ediv _ (by omega)]
        omega
      simp only [Enc.threeColumn, h1]
      rw [Enc.jsRepeat_of_nonneg _ _ (by omega), Enc.jsRepeat_of_nonneg _ _ (by omega)]
      simp

namespace Enc

/-- Space-joined rendering of a word group: the shape of the `currentLine`
strings built by the wrap loop. -/
def joinSpace : List Str → Str
  | [] => []
  | [w] => w
  | w :: ws => w ++ ' ' :: joinSpace ws

/-- A word of well-formed wrap input: nonempty and free of whitespace. -/
def WfWord (w : Str) : Prop := w ≠ [] ∧ ∀ ch ∈ w, jsWs ch = false

instance (w : Str) : Decidable (WfWord w) := by
  unfold WfWord
  infer_instance

theorem joinSpace_cons_cons (w v : Str) (ws : List Str) :
    joinSpace (w :: v :: ws) = w ++ ' ' :: joinSpace (v :: ws) := rfl

theorem joinSpace_append_singleton (ws : List Str) (v : Str) (h : ws ≠ []) :
    joinSpace (ws ++ [v]) = joinSpace ws ++ ' ' :: v := by
  induction ws with
  | nil => exact absurd rfl h
  | cons w ws ih =>
    cases ws with
    | nil => simp [joinSpace]
    | cons u us =>
      have h2 : joinSpace (u :: (us ++ [v])) = joinSpace (u :: us) ++ ' ' :: v :=
        ih (by simp)
      calc joinSpace ((w :: u :: us) ++ [v])
          = w ++ ' ' :: joinSpace (u :: (us ++ [v])) := rfl
        _ = w ++ ' ' :: (joinSpace (u :: us) ++ ' ' :: v) := by rw [h2]
        _ = joinSpace (w :: u :: us) ++ ' ' :: v := by
            rw [joinSpace_cons_cons]
            simp

theorem joinSpace_cons_head (c : Char) (w' : Str) (ws : List Str) :
    ∃ rest, joinSpace ((c :: w') :: ws) = c :: rest := by
  cases ws with
  | nil => exact ⟨w', rfl⟩
  | cons u us => exact ⟨w' ++ ' ' :: joinSpace (u :: us), rfl⟩

theorem joinSpace_cons_ne_nil (w : Str) (ws : List Str) (hw : w ≠ []) :
    joinSpace (w :: ws) ≠ [] := by
  obtain ⟨c, w', rfl⟩ : ∃ c w', w = c :: w' := by
    cases w with
    | nil => exact absurd rfl hw
    | cons c w' => exact ⟨c, w', rfl⟩
  obtain ⟨rest, hrest⟩ := joinSpace_cons_head c w' ws
  simp [hrest]

theorem joinSpace_reverse_head (l : List Str) (h : ∀ w ∈ l, WfWord w) (hl : l ≠ []) :
    ∃ d t, (joinSpace l).reverse = d :: t ∧ jsWs d = false := by
  induction l with
  | nil => exact absurd rfl hl
  | cons w ws ih =>
    cases ws with
    | nil =>
      obtain ⟨hne, hchars⟩ := h w (by simp)
      obtain ⟨d, t, hdt⟩ : ∃ d t, w.reverse = d :: t := by
        cases hrev : w.reverse with
        | nil =>
          exact absurd (by simpa using congrArg List.reverse hrev) hne
        | cons d t => exact ⟨d, t, rfl⟩
      refine ⟨d, t, by simpa [joinSpace] using hdt, ?_⟩
      exact hchars d (by rw [← List.mem_reverse, hdt]; simp)
    | cons u us =>
      obtain ⟨d, t, hdt, hd⟩ := ih (fun v hv => h v (by simp [hv])) (by simp)
      refine ⟨d, t ++ ' ' :: w.reverse, ?_, hd⟩
      rw [joinSpace_cons_cons, List.reverse_append]
      simp [hdt]

theorem jsTrim_eq_self_of (c : Char) (s' : Str)
    (hc : jsWs c = false) (d : Char) (t : Str) (hrev : (c :: s').reverse = d :: t)
    (hd : jsWs d = false) : jsTrim (c :: s') = c :: s' := by
  unfold jsTrim
  rw [List.dropWhile_cons, hc]
  simp only [Bool.false_eq_true, if_false, hrev, List.dropWhile_cons, hd]
  rw [← hrev, List.reverse_reverse]

theorem jsTrim_wf (v : Str) (hv : WfWord v) : jsTrim v = v := by
  obtain ⟨hne, hchars⟩ := hv
  obtain ⟨c, v', rfl⟩ : ∃ c v', v = c :: v' := by
    cases v with
    | nil => exact absurd rfl hne
    | cons c v' => exact ⟨c, v', rfl⟩
  obtain ⟨d, t, hdt⟩ : ∃ d t, (c :: v').reverse = d :: t := by
    cases hrev : (c :: v').reverse with
    | nil =>
      have hlen := congrArg List.length hrev
      simp at hlen
    | cons d t => exact ⟨d, t, rfl⟩
  exact jsTrim_eq_self_of c v' (hchars c (by simp)) d t hdt
    (hchars d (by rw [← List.mem_reverse, hdt]; simp))

theorem jsTrim_space_cons (v : Str) : jsTrim (' ' :: v) = jsTrim v := by
  unfold jsTrim
  rw [List.dropWhile_cons]
  norm_num [jsWs]

theorem jsTrim_join_append (ws : List Str) (v : Str) (h : ∀ w ∈ ws, WfWord w)
    (hv : WfWord v) : jsTrim (joinSpace ws ++ ' ' :: v) = joinSpace (ws ++ [v]) := by
  cases ws with
  | nil =>
    show jsTrim (joinSpace [] ++ ' ' :: v) = joinSpace [v]
    rw [show joinSpace [] = ([] : Str) from rfl, List.nil_append, jsTrim_space_cons,
      jsTrim_wf v hv]
    rfl
  | cons w ws' =>
    rw [← joinSpace_append_singleton _ v (by simp)]
    have hall : ∀ u ∈ (w :: ws') ++ [v], WfWord u := by
      intro u hu
      rcases List.mem_append.mp hu with hu | hu
      · exact h u hu
      · simp at hu; subst hu; exact hv
    obtain ⟨c, w', rfl⟩ : ∃ c w', w = c :: w' := by
      obtain ⟨hne, _⟩ := h w (by simp)
      cases w with
      | nil => exact absurd rfl hne
      | cons c w' => exact ⟨c, w', rfl⟩
    obtain ⟨rest, hrest⟩ := joinSpace_cons_head c w' (ws' ++ [v])
    obtain ⟨d, t, hdt, hd⟩ := joinSpace_reverse_head ((c :: w') :: ws' ++ [v]) hall (by simp)
    have hc : jsWs c = false := (h (c :: w') (by simp)).2 c (by simp)
    rw [List.cons_append, hrest] at *
    rw [hrest] at hdt
    exact hrest ▸ jsTrim_eq_self_of c rest hc d t (hrest ▸ hdt) hd

/-- Adjacency condition of a greedy wrap: the previous line together with a
separating space and the next line's first word would overflow the budget. -/
def wrapAdj (cpl : Nat) (g h : List Str) : Prop :=
  cpl < (joinSpace g).length + 1 + h.headI.length

theorem wrapAux_lines_le (cpl : Nat) :
    ∀ (words : List Str) (lines : List Str) (cur : Str),
      (∀ l ∈ lines, l.length ≤ cpl) → cur.length ≤ cpl →
      (∀ w ∈ words, w.length ≤ cpl) →
      ∀ l ∈ wrapAux cpl lines cur words, l.length ≤ cpl := by
  intro words
  induction words with
  | nil =>
    intro lines cur hlines hcur _ l hl
    simp only [wrapAux] at hl
    split at hl
    · exact hlines l hl
    · rcases List.mem_append.mp hl with h | h
      · exact hlines l h
      · simp at h; subst h; exact hcur
  | cons word ws ih =>
    intro lines cur hlines hcur hwords l hl
    simp only [wrapAux] at hl
    split at hl
    case isTrue hguard =>
      exact ih lines _ hlines hguard (fun w hw => hwords w (by simp [hw])) l hl
    case isFalse hguard =>
      split at hl
      · exact ih lines word hlines (hwords word (by simp))
          (fun w hw => hwords w (by simp [hw])) l hl
      · refine ih (lines ++ [cur]) word ?_ (hwords word (by simp))
          (fun w hw => hwords w (by simp [hw])) l hl
        intro l' hl'
        rcases List.mem_append.mp hl' with h | h
        · exact hlines l' h
        · simp at h; subst h; exact hcur

theorem wrapAux_complete (cpl : Nat) :
    ∀ (words : List Str) (glines : List (List Str)) (curw : List Str),
      (∀ w ∈ words, WfWord w) →
      (∀ g ∈ glines, g ≠ [] ∧ ∀ w ∈ g, WfWord w) →
      (∀ w ∈ curw, WfWord w) →
      (curw = [] → glines = []) →
      List.Chain' (wrapAdj cpl) (glines ++ if curw = [] then [] else [curw]) →
      ∃ groups : List (List Str),
        wrapAux cpl (glines.map joinSpace) (joinSpace curw) words
          = groups.map joinSpace
        ∧ groups.flatten = glines.flatten ++ (curw ++ words)
        ∧ (∀ g ∈ groups, g ≠ [] ∧ ∀ w ∈ g, WfWord w)
        ∧ List.Chain' (wrapAdj cpl) groups := by
  intro words
  induction words with
  | nil =>
    intro glines curw _ hg hc hce hchain
    by_cases hcnil : curw = []
    · subst hcnil
      have hgnil := hce rfl
      subst hgnil
      exact ⟨[], by simp [wrapAux, joinSpace], by simp, by simp, List.chain'_nil⟩
    · have hne : joinSpace curw ≠ [] := by
        cases curw with
        | nil => exact absurd rfl hcnil
        | cons w ws => exact joinSpace_cons_ne_nil w ws (hc w (by simp)).1
      refine ⟨glines ++ [curw], ?_, by simp, ?_, ?_⟩
      · simp [wrapAux, hne]
      · intro g hg'
        rcases List.mem_append.mp hg' with h | h
        · exact hg g h
        · simp at h; subst h; exact ⟨hcnil, hc⟩
      · simpa [hcnil] using hchain
  | cons word ws ih =>
    intro glines curw hw hg hc hce hchain
    have hwword : WfWord word := hw word (by simp)
    have hws : ∀ w ∈ ws, WfWord w := fun w h => hw w (by simp [h])
    have htrim : jsTrim (joinSpace curw ++ ' ' :: word) = joinSpace (curw ++ [word]) :=
      jsTrim_join_append curw word hc hwword
    by_cases hfits : (joinSpace (curw ++ [word])).length ≤ cpl
    · -- the word is appended to the current line
      have heq : wrapAux cpl (glines.map joinSpace) (joinSpace curw) (word :: ws)
          = wrapAux cpl (glines.map joinSpace) (joinSpace (curw ++ [word])) ws := by
        simp only [wrapAux]
        rw [htrim, if_pos hfits]
      have hc' : ∀ w ∈ curw ++ [word], WfWord w := by
        intro w h
        rcases List.mem_append.mp h with h | h
        · exact hc w h
        · simp at h; subst h; exact hwword
      have hchain' : List.Chain' (wrapAdj cpl)
          (glines ++ if curw ++ [word] = [] then [] else [curw ++ [word]]) := by
        rw [if_neg (by simp)]
        by_cases hcnil : curw = []
        · have hgnil := hce hcnil
          subst hgnil
          exact List.chain'_singleton _
        · rw [if_neg hcnil] at hchain
          rw [List.chain'_append] at hchain ⊢
          obtain ⟨h1, _, h3⟩ := hchain
          refine ⟨h1, List.chain'_singleton _, ?_⟩
          intro x hx y hy
          simp at hy
          subst hy
          have hlink := h3 x hx curw (by simp)
          have hhead : (curw ++ [word]).headI = curw.headI := by
            cases curw with
            | nil => exact absurd rfl hcnil
            | cons a b => rfl
          unfold wrapAdj at hlink ⊢
          rw [hhead]
          exact hlink
      obtain ⟨groups, h1, h2, h3, h4⟩ :=
        ih glines (curw ++ [word]) hws hg hc' (by simp) hchain'
      refine ⟨groups, ?_, ?_, h3, h4⟩
      · rw [heq, h1]
      · rw [h2]
        simp
    · by_cases hcnil : curw = []
      · -- current line empty: the word starts the (first) line without a flush
        subst hcnil
        have hgnil := hce rfl
        subst hgnil
        have heq : wrapAux cpl (List.map joinSpace []) (joinSpace ([] : List Str))
              (word :: ws)
            = wrapAux cpl (List.map joinSpace []) (joinSpace [word]) ws := by
          simp only [wrapAux]
          rw [htrim]
          simp only [List.nil_append] at hfits ⊢
          rw [if_neg hfits]
          simp [joinSpace]
        obtain ⟨groups, h1, h2, h3, h4⟩ :=
          ih [] [word] hws (by simp)
            (by intro w h; simp at h; subst h; exact hwword) (by simp)
            (by rw [if_neg (by simp)]; exact List.chain'_singleton _)
        refine ⟨groups, ?_, by simpa using h2, h3, h4⟩
        rw [heq, h1]
      · -- overflow: flush the current line, the word starts a new line
        have hjne : joinSpace curw ≠ [] := by
          cases curw with
          | nil => exact absurd rfl hcnil
          | cons w ws' => exact joinSpace_cons_ne_nil w ws' (hc w (by simp)).1
        have heq : wrapAux cpl (glines.map joinSpace) (joinSpace curw) (word :: ws)
            = wrapAux cpl (glines.map joinSpace ++ [joinSpace curw])
                (joinSpace [word]) ws := by
          simp only [wrapAux]
          rw [htrim, if_neg hfits, if_neg hjne]
          rfl
        have hg' : ∀ g ∈ glines ++ [curw], g ≠ [] ∧ ∀ w ∈ g, WfWord w := by
          intro g h
          rcases List.mem_append.mp h with h | h
          · exact hg g h
          · simp at h; subst h; exact ⟨hcnil, hc⟩
        have hlink : wrapAdj cpl curw [word] := by
          have hj : joinSpace (curw ++ [word]) = joinSpace curw ++ ' ' :: word :=
            joinSpace_append_singleton curw word hcnil
          rw [hj] at hfits
          show cpl < (joinSpace curw).length + 1 + word.length
          simp [List.length_append] at hfits
          omega
        have hchain' : List.Chain' (wrapAdj cpl)
            ((glines ++ [curw]) ++ if ([word] : List Str) = [] then []
              else [[word]]) := by
          rw [if_neg (by simp)]
          rw [if_neg hcnil] at hchain
          rw [List.chain'_append] at hchain ⊢
          obtain ⟨h1, _, h3⟩ := hchain
          rw [List.chain'_append]
          refine ⟨⟨h1, List.chain'_singleton _, h3⟩, List.chain'_singleton _, ?_⟩
          intro x hx y hy
          simp at hy
          subst hy
          rw [List.getLast?_concat] at hx
          simp at hx
          subst hx
          exact hlink
        obtain ⟨groups, h1, h2, h3, h4⟩ :=
          ih (glines ++ [curw]) [word] hws hg'
            (by intro w h; simp at h; subst h; exact hwword) (by simp) hchain'
        refine ⟨groups, ?_, ?_, h3, h4⟩
        · rw [heq, ← h1]
          congr 1
          simp
        · rw [h2]
          simp

end Enc

/-- C5: for input whose space-separated words are nonempty and whitespace-free,
`wrap` never breaks a word: the output lines are exactly the space-joins of a
partition of the word list into consecutive nonempty groups; the grouping is
greedy (each line together with the next line's first word would overflow the
budget); if every word fits the budget then every line fits the budget; and on
budget 10 and text "abcde fghij klmno" the lines are exactly
["abcde", "fghij", "klmno"]. -/
theorem wrap_greedy_no_word_break (cpl : Nat) (content : Enc.Str)
    (hw : ∀ w ∈ Enc.jsSplit content, Enc.WfWord w) :
    (∃ groups : List (List Enc.Str),
      Enc.wrap cpl content = groups.map Enc.joinSpace ∧
      groups.flatten = Enc.jsSplit content ∧
      (∀ g ∈ groups, g ≠ []) ∧
      List.Chain' (Enc.wrapAdj cpl) groups ∧
      ((∀ w ∈ Enc.jsSplit content, w.length ≤ cpl) →
        ∀ l ∈ Enc.wrap cpl content, l.length ≤ cpl))
    ∧ Enc.wrap 10 "abcde fghij klmno".data
      = ["abcde".data, "fghij".data, "klmno".data] := by
  constructor
  · obtain ⟨groups, h1, h2, h3, h4⟩ :=
      Enc.wrapAux_complete cpl (Enc.jsSplit content) [] [] hw (by simp) (by simp)
        (fun _ => rfl) (by simp)
    refine ⟨groups, ?_, by simpa using h2, fun g hg => (h3 g hg).1, h4, ?_⟩
    · simpa [Enc.wrap, Enc.wrapWords] using h1
    · intro hlen l hl
      exact Enc.wrapAux_lines_le cpl (Enc.jsSplit content) [] [] (by simp) (by simp)
        hlen l hl
  · decide

/-- Witness for `wrap_greedy_no_word_break` at the concrete example input. -/
theorem wrap_greedy_no_word_break_witness :
    (∀ w ∈ Enc.jsSplit "abcde fghij klmno".data, Enc.WfWord w) ∧
    ((∃ groups : List (List Enc.Str),
      Enc.wrap 10 "abcde fghij klmno".data = groups.map Enc.joinSpace ∧
      groups.flatten = Enc.jsSplit "abcde fghij klmno".data ∧
      (∀ g ∈ groups, g ≠ []) ∧
      List.Chain' (Enc.wrapAdj 10) groups ∧
      ((∀ w ∈ Enc.jsSplit "abcde fghij klmno".data, w.length ≤ 10) →
        ∀ l ∈ Enc.wrap 10 "abcde fghij klmno".data, l.length ≤ 10))
    ∧ Enc.wrap 10 "abcde fghij klmno".data
      = ["abcde".data, "fghij".data, "klmno".data]) := by
  constructor
  · decide
  · exact wrap_greedy_no_word_break 10 "abcde fghij klmno".data (by decide)

namespace Enc

/-- JS `${n}` for a (nonnegative integer) number. -/
def natStr (n : Nat) : Str := (Nat.repr n).data

/-- JS `String(i)` for an integer. -/
def intStr (i : Int) : Str := (Int.repr i).data

/-- JS `Math.round(x)`: round half towards positive infinity. -/
def jsRound (q : ℚ) : Int := ⌊q + 1/2⌋

/-- Models JS `String(Number(s))` on its domain of use here: the summary
fields are canonical decimal numeral strings, which parse to a double and
re-render unchanged (precision loss beyond IEEE-754 doubles is out of scope
of this model). -/
def jsNumberString (s : Str) : Str := s

/-- The item fields used by the row renderers
(`src/types/printer.ts`, `InvoiceItem`); JS truthiness of `item.details`
is the nonemptiness test of the string. -/
structure InvoiceItem where
  productName : Str
  details : Str
  quantity : Nat
  subtotal : ℚ

/-- Item-row lines of `ESCPOSEncoder.generateKOT` (ESCPOSEncoder.ts:231-239):
`qty = ("${quantity}x").padEnd(QTY_WIDTH)`,
`name = productName.slice(0, ITEM_WIDTH)` with
`ITEM_WIDTH = WIDTH - QTY_WIDTH - 2`, and the optional indented detail line
`"     " + details.slice(0, WIDTH - 5)`. -/
def kotItemLines (WIDTH : Nat) (item : InvoiceItem) : List Str :=
  let QTY_WIDTH := 5
  let ITEM_WIDTH := WIDTH - QTY_WIDTH - 2
  let qty := jsPadEnd (natStr item.quantity ++ ['x']) QTY_WIDTH
  let name := jsSlice item.productName ITEM_WIDTH
  [qty ++ name]
    ++ (if item.details ≠ [] then
          [List.replicate 5 ' ' ++ jsSlice item.details (WIDTH - 5)]
        else [])

/-- Item-row lines of `ESCPOSEncoder.generateInvoice`
(ESCPOSEncoder.ts:312-321):
`ITEM_WIDTH = WIDTH - QTY_WIDTH - TOTAL_WIDTH` with `TOTAL_WIDTH = 10`,
`qty = ("${quantity}x").padEnd(QTY_WIDTH)`,
`name = productName.slice(0, ITEM_WIDTH - 2)`,
`total = String(Math.round(subtotal)).padStart(TOTAL_WIDTH - 2)`,
row `qty + name.padEnd(ITEM_WIDTH - 1) + ".." + total`, and the optional
indented detail line `"     " + details.slice(0, WIDTH - 5)`. -/
def invoiceItemLines (WIDTH : Nat) (item : InvoiceItem) : List Str :=
  let QTY_WIDTH := 5
  let TOTAL_WIDTH := 10
  let ITEM_WIDTH := WIDTH - QTY_WIDTH - TOTAL_WIDTH
  let qty := jsPadEnd (natStr item.quantity ++ ['x']) QTY_WIDTH
  let name := jsSlice item.productName (ITEM_WIDTH - 2)
  let total := jsPadStart (intStr (jsRound item.subtotal)) (TOTAL_WIDTH - 2)
  [qty ++ jsPadEnd name (ITEM_WIDTH - 1) ++ "..".data ++ total]
    ++ (if item.details ≠ [] then
          [List.replicate 5 ' ' ++ jsSlice item.details (WIDTH - 5)]
        else [])

/-- Summary total line of `ESCPOSEncoder.generateInvoice`
(ESCPOSEncoder.ts:328): `twoColumn("TOTAL:", String(Number(summary.total)))`.
-/
def invoiceTotalLine (WIDTH : Nat) (total : Str) : Option Str :=
  twoColumn WIDTH "TOTAL:".data (jsNumberString total)

/-- Concrete invoice item exhibiting the name-truncation width of the code:
a 33-character name on an 80mm invoice keeps only 31 characters. -/
def cexInvoiceItem : InvoiceItem :=
  { productName := List.replicate 33 'A'
    details := []
    quantity := 2
    subtotal := 11 }

end Enc

/-- C6 counterexample: the claim predicts that on an 80mm invoice (budget 48)
the item name is truncated to 48 − 5 − 10 = 33 characters, so a 33-character
name would appear in full after the 5-character quantity field.  The code
truncates to `ITEM_WIDTH − 2 = 31` characters: the first 38 characters of the
row are not the quantity field followed by 33 name characters, but the
quantity field followed by 31 name characters and padding. -/
theorem invoice_name_truncation_cex :
    (Enc.invoiceItemLines 48 Enc.cexInvoiceItem).headI.take (5 + 33)
      ≠ Enc.jsPadEnd (Enc.natStr 2 ++ ['x']) 5 ++ List.replicate 33 'A'
    ∧ (Enc.invoiceItemLines 48 Enc.cexInvoiceItem).headI.take (5 + 31)
      = Enc.jsPadEnd (Enc.natStr 2 ++ ['x']) 5 ++ List.replicate 31 'A' := by
  decide

/-- C6 amended: the quantity field is the pattern `<qty>x` space-padded to
width 5 (wider only if the pattern itself exceeds 5 characters); the item
name is truncated to budget − 5 − 2 on KOT tickets and to
budget − 5 − 10 − 2 on invoices (the code subtracts 2 beyond the quantity
and totals columns); a detail line is indented 5 spaces and truncated to
budget − 5; the per-row total is the whole-number rounding of the subtotal
padded to width 8, while the summary total line embeds the summary value
without rounding; in particular subtotal 10.5 renders as "11" in a row. -/
theorem item_row_layout (WIDTH : Nat) (item : Enc.InvoiceItem) (t : Enc.Str) :
    Enc.kotItemLines WIDTH item
      = [Enc.jsPadEnd (Enc.natStr item.quantity ++ ['x']) 5
          ++ item.productName.take (WIDTH - 7)]
        ++ (if item.details ≠ [] then
              [List.replicate 5 ' ' ++ item.details.take (WIDTH - 5)]
            else [])
    ∧ Enc.invoiceItemLines WIDTH item
      = [Enc.jsPadEnd (Enc.natStr item.quantity ++ ['x']) 5
          ++ Enc.jsPadEnd (item.productName.take (WIDTH - 17)) (WIDTH - 16)
          ++ "..".data
          ++ Enc.jsPadStart (Enc.intStr (Enc.jsRound item.subtotal)) 8]
        ++ (if item.details ≠ [] then
              [List.replicate 5 ' ' ++ item.details.take (WIDTH - 5)]
            else [])
    ∧ Enc.invoiceTotalLine WIDTH t = Enc.twoColumn WIDTH "TOTAL:".data t
    ∧ Enc.intStr (Enc.jsRound (21/2 : ℚ)) = "11".data := by
  have hround : Enc.jsRound (21/2 : ℚ) = 11 := by
    unfold Enc.jsRound
    norm_num
  refine ⟨?_, ?_, rfl, by rw [hround]; decide⟩
  · have e1 : WIDTH - 5 - 2 = WIDTH - 7 := by omega
    simp only [Enc.kotItemLines, Enc.jsSlice, e1]
  · have e1 : WIDTH - 5 - 10 - 2 = WIDTH - 17 := by omega
    have e2 : WIDTH - 5 - 10 - 1 = WIDTH - 16 := by omega
    simp only [Enc.invoiceItemLines, Enc.jsSlice, e1, e2]

namespace Orch

/-- Job status (`src/types/printer.ts`, `PrintJob.status`). -/
inductive JobStatus where
  | pending | printing | completed | failed
deriving DecidableEq, Repr

/-- Connection status (`src/types/printer.ts`, `PrinterStatus`). -/
inductive PrinterStatus where
  | disconnected | connecting | connected | printing | error
deriving DecidableEq, Repr

/-- The printer-config fields the orchestrator logic reads. -/
structure PrinterConfig where
  id : String
  paperWidth : Nat
deriving DecidableEq, Repr

/-- A print job (`src/types/printer.ts`, `PrintJob`); the payload does not
influence the queue logic and is elided. -/
structure PrintJob where
  id : String
  status : JobStatus
  retryCount : Nat
  error : Option String
deriving DecidableEq, Repr

/-- Orchestrator state (PrinterService.ts:34-44): the `PrinterState` record
together with the `isProcessingQueue` drain flag. -/
structure PState where
  status : PrinterStatus
  connectedPrinter : Option PrinterConfig
  printQueue : List PrintJob
  lastError : Option String
  isProcessingQueue : Bool
deriving DecidableEq, Repr

/-- The event surface (PrinterService.ts `emit` call sites), with the payloads
the code passes; `updateState` emits `state_changed` carrying the new state,
and the two blocking alerts are modelled as events. -/
inductive Event where
  | state_changed (s : PState)
  | device_connected (c : PrinterConfig)
  | device_disconnected
  | job_added (j : PrintJob)
  | print_started (j : PrintJob)
  | print_completed (j : PrintJob)
  | print_failed (j : PrintJob) (err : String)
  | queue_cleared
  | errorEvent (msg : String)
  | no_printer_alert
  | print_failed_alert
deriving DecidableEq, Repr

/-- Outcome of `sendToPrinter` for one attempt: the transport either accepts
the bytes or rejects with an error message.  This is the only effect of the
adapter layer visible to `executePrintJob`. -/
abbrev SendOutcome := Except String Unit

/-- `PrinterServiceClass.executePrintJob` (PrinterService.ts:436-492) for a
job `j` taken from the pending snapshot, given the send outcome.  Mutations
of the job object are modelled as id-keyed updates of the queue (job ids are
generated uniquely by `addPrintJob`).  Encoding is elided: for the four
declared job types the generators are total, so only the send can throw. -/
def executePrintJob (outcome : SendOutcome) (s : PState) (j : PrintJob) :
    PState × List Event :=
  let j1 : PrintJob := { j with status := .printing }
  let s1 : PState :=
    { s with printQueue := s.printQueue.map fun q => if q.id = j.id then j1 else q }
  let s2 : PState := { s1 with status := .printing }
  let startEvs : List Event := [.state_changed s2, .print_started j1]
  match outcome with
  | .ok _ =>
    let j2 : PrintJob := { j1 with status := .completed }
    let s3 : PState :=
      { s2 with printQueue := s2.printQueue.filter fun q => q.id ≠ j.id }
    let s4 : PState := { s3 with status := .connected }
    (s4, startEvs ++ [.state_changed s4, .print_completed j2])
  | .error e =>
    let j2 : PrintJob := { j1 with retryCount := j1.retryCount + 1, error := some e }
    if j2.retryCount < 3 then
      let j3 : PrintJob := { j2 with status := .pending }
      let s3 : PState :=
        { s2 with printQueue := s2.printQueue.map fun q => if q.id = j.id then j3 else q }
      let s4 : PState := { s3 with status := .connected }
      (s4, startEvs ++ [.state_changed s4])
    else
      let j3 : PrintJob := { j2 with status := .failed }
      let s3 : PState :=
        { s2 with printQueue := s2.printQueue.filter fun q => q.id ≠ j.id }
      let s4 : PState := { s3 with status := .connected }
      (s4, startEvs ++ [.print_failed j3 e, .print_failed_alert, .state_changed s4])

/-- The `for (const job of pendingJobs)` loop of `processQueue`
(PrinterService.ts:423-428): stop as soon as the status drops away from
`connected`, otherwise execute the jobs of the snapshot sequentially. -/
def processJobs (outcome : SendOutcome) : List PrintJob → PState → PState × List Event
  | [], s => (s, [])
  | j :: rest, s =>
    if s.status ≠ .connected then (s, [])
    else
      let r1 := executePrintJob outcome s j
      let r2 := processJobs outcome rest r1.1
      (r2.1, r1.2 ++ r2.2)

/-- `PrinterServiceClass.processQueue` (PrinterService.ts:400-431). -/
def processQueue (outcome : SendOutcome) (s : PState) : PState × List Event :=
  if s.isProcessingQueue then (s, [])
  else
    let pendingJobs := s.printQueue.filter fun j => j.status = .pending
    if pendingJobs = [] then (s, [])
    else if s.status ≠ .connected ∨ s.connectedPrinter = none then
      (s, [.no_printer_alert])
    else
      let s1 : PState := { s with isProcessingQueue := true }
      let r := processJobs outcome pendingJobs s1
      ({ r.1 with isProcessingQueue := false }, r.2)

/-- The retry timer body scheduled by the retry branch of `executePrintJob`
(PrinterService.ts:479-482): clear the drain flag and drain again. -/
def retryTimeout (outcome : SendOutcome) (s : PState) : PState × List Event :=
  processQueue outcome { s with isProcessingQueue := false }

/-- `PrinterServiceClass.addPrintJob` (PrinterService.ts:374-395); the
generated job id is a parameter.  The push mutates the queue array in place,
so no `state_changed` is emitted. -/
def addPrintJob (outcome : SendOutcome) (s : PState) (jobId : String) :
    PState × List Event :=
  let job : PrintJob := { id := jobId, status := .pending, retryCount := 0, error := none }
  let s1 : PState := { s with printQueue := s.printQueue ++ [job] }
  let r := processQueue outcome s1
  (r.1, Event.job_added job :: r.2)

/-- The success path of `PrinterServiceClass.connect`
(PrinterService.ts:217-262): status `connecting`, error cleared, then the
connected update, the `device_connected` event and a queue drain.  The
storage writes (`updateLastConnected`, `savePrinter`) are external
collaborator calls with no effect on orchestrator state and are elided. -/
def connectOk (outcome : SendOutcome) (s : PState) (config : PrinterConfig) :
    PState × List Event :=
  let s1 : PState := { s with status := .connecting }
  let s2 : PState := { s1 with lastError := none }
  let s3 : PState :=
    { s2 with status := .connected, connectedPrinter := some config, lastError := none }
  let r := processQueue outcome s3
  (r.1, [.state_changed s1, .state_changed s2, .state_changed s3,
    .device_connected config] ++ r.2)

/-- The failure path of `PrinterServiceClass.connect`
(PrinterService.ts:265-275): status `error` with the message; the profile
reference is left untouched. -/
def connectFail (s : PState) (msg : String) : PState × List Event :=
  let s1 : PState := { s with status := .connecting }
  let s2 : PState := { s1 with lastError := none }
  let s3 : PState := { s2 with status := .error, lastError := some msg }
  (s3, [.state_changed s1, .state_changed s2, .state_changed s3, .errorEvent msg])

/-- `PrinterServiceClass.disconnect` (PrinterService.ts:338-367): a no-op
without a connected printer; otherwise clears status and profile reference
(adapter teardown errors are swallowed). -/
def disconnectOp (s : PState) : PState × List Event :=
  if s.connectedPrinter = none then (s, [])
  else
    let s1 : PState := { s with status := .disconnected, connectedPrinter := none }
    (s1, [.state_changed s1, .device_disconnected])

/-- `PrinterServiceClass.clearQueue` (PrinterService.ts:501-504). -/
def clearQueue (s : PState) : PState × List Event :=
  ({ s with printQueue := s.printQueue.filter fun j => j.status = .printing },
    [.queue_cleared])

end Orch

namespace Orch

/-- Jobs carried by `print_started` events, in emission order. -/
def printStartedJobs (evs : List Event) : List PrintJob :=
  evs.filterMap fun ev =>
    match ev with
    | .print_started j => some j
    | _ => none

/-- Job/error pairs carried by `print_failed` events, in emission order. -/
def printFailedJobs (evs : List Event) : List (PrintJob × String) :=
  evs.filterMap fun ev =>
    match ev with
    | .print_failed j e => some (j, e)
    | _ => none

/-- The job-lifecycle subsequence of an event trace. -/
def lifecycleEvents (evs : List Event) : List Event :=
  evs.filter fun ev =>
    match ev with
    | .print_started _ => true
    | .print_completed _ => true
    | .print_failed _ _ => true
    | _ => false

/-- Number of queued jobs in status `printing`. -/
def printingCount (s : PState) : Nat :=
  (s.printQueue.filter fun j => j.status = .printing).length

/-- The states carried by `state_changed` events, in emission order: every
state produced by `updateState` appears here. -/
def emittedStates (evs : List Event) : List PState :=
  evs.filterMap fun ev =>
    match ev with
    | .state_changed s => some s
    | _ => none

end Orch

/-- C1: starting connected with one pending job whose send always fails, the
drain plus the two scheduled retry drains perform exactly 3 attempts
(3 `print_started` events, at retry counts 0, 1, 2), the job goes back to
`pending` after each of the two retries, exactly one `print_failed` event is
emitted (with the job marked `failed` at retry count 3), the job is removed
from the queue, the orchestrator returns to `connected`, and a further drain
performs no further attempt. -/
theorem retry_bound_always_failing (c : Orch.PrinterConfig) (jid e : String) :
    let j0 : Orch.PrintJob := { id := jid, status := .pending, retryCount := 0, error := none }
    let s0 : Orch.PState :=
      { status := .connected, connectedPrinter := some c, printQueue := [j0],
        lastError := none, isProcessingQueue := false }
    let r1 := Orch.processQueue (.error e) s0
    let r2 := Orch.retryTimeout (.error e) r1.1
    let r3 := Orch.retryTimeout (.error e) r2.1
    let evs := r1.2 ++ r2.2 ++ r3.2
    Orch.printStartedJobs evs
      = [{ id := jid, status := .printing, retryCount := 0, error := none },
         { id := jid, status := .printing, retryCount := 1, error := some e },
         { id := jid, status := .printing, retryCount := 2, error := some e }]
    ∧ Orch.printFailedJobs evs
      = [({ id := jid, status := .failed, retryCount := 3, error := some e }, e)]
    ∧ r1.1.printQueue = [{ id := jid, status := .pending, retryCount := 1, error := some e }]
    ∧ r2.1.printQueue = [{ id := jid, status := .pending, retryCount := 2, error := some e }]
    ∧ r3.1.printQueue = []
    ∧ r3.1.status = .connected
    ∧ Orch.processQueue (.error e) r3.1 = (r3.1, []) := by
  simp [Orch.processQueue, Orch.processJobs, Orch.executePrintJob, Orch.retryTimeout,
    Orch.printStartedJobs, Orch.printFailedJobs]

/-- C2: submitting three jobs while disconnected leaves them queued in
submission order (each submission only raises the no-printer alert); a
successful connect then drains them strictly in submission order, one at a
time: the lifecycle events alternate `print_started`/`print_completed` in
the order J1, J2, J3, and every state produced by `updateState` has at most
one job in status `printing`. -/
theorem fifo_queue_drain (c : Orch.PrinterConfig) (id1 id2 id3 : String)
    (h12 : id1 ≠ id2) (h13 : id1 ≠ id3) (h23 : id2 ≠ id3) :
    let s0 : Orch.PState :=
      { status := .disconnected, connectedPrinter := none, printQueue := [],
        lastError := none, isProcessingQueue := false }
    let q1 := Orch.addPrintJob (.ok ()) s0 id1
    let q2 := Orch.addPrintJob (.ok ()) q1.1 id2
    let q3 := Orch.addPrintJob (.ok ()) q2.1 id3
    let q4 := Orch.connectOk (.ok ()) q3.1 c
    let evs := q1.2 ++ q2.2 ++ q3.2 ++ q4.2
    q3.1.printQueue
      = [{ id := id1, status := .pending, retryCount := 0, error := none },
         { id := id2, status := .pending, retryCount := 0, error := none },
         { id := id3, status := .pending, retryCount := 0, error := none }]
    ∧ Orch.lifecycleEvents evs
      = [.print_started { id := id1, status := .printing, retryCount := 0, error := none },
         .print_completed { id := id1, status := .completed, retryCount := 0, error := none },
         .print_started { id := id2, status := .printing, retryCount := 0, error := none },
         .print_completed { id := id2, status := .completed, retryCount := 0, error := none },
         .print_started { id := id3, status := .printing, retryCount := 0, error := none },
         .print_completed { id := id3, status := .completed, retryCount := 0, error := none }]
    ∧ (∀ s' ∈ Orch.emittedStates evs, Orch.printingCount s' ≤ 1)
    ∧ q4.1.printQueue = []
    ∧ q4.1.status = .connected := by
  simp [Orch.addPrintJob, Orch.connectOk, Orch.processQueue, Orch.processJobs,
    Orch.executePrintJob, Orch.lifecycleEvents, Orch.emittedStates, Orch.printingCount,
    h12, h13, h23, Ne.symm h12, Ne.symm h13, Ne.symm h23]

/-- Witness for `fifo_queue_drain` at concrete distinct job ids. -/
theorem fifo_queue_drain_witness :
    ("a1" : String) ≠ "a2" ∧ ("a1" : String) ≠ "a3" ∧ ("a2" : String) ≠ "a3" ∧
    (let s0 : Orch.PState :=
      { status := .disconnected, connectedPrinter := none, printQueue := [],
        lastError := none, isProcessingQueue := false }
    let q1 := Orch.addPrintJob (.ok ()) s0 "a1"
    let q2 := Orch.addPrintJob (.ok ()) q1.1 "a2"
    let q3 := Orch.addPrintJob (.ok ()) q2.1 "a3"
    let q4 := Orch.connectOk (.ok ()) q3.1 ⟨"p1", 80⟩
    let evs := q1.2 ++ q2.2 ++ q3.2 ++ q4.2
    q3.1.printQueue
      = [{ id := "a1", status := .pending, retryCount := 0, error := none },
         { id := "a2", status := .pending, retryCount := 0, error := none },
         { id := "a3", status := .pending, retryCount := 0, error := none }]
    ∧ Orch.lifecycleEvents evs
      = [.print_started { id := "a1", status := .printing, retryCount := 0, error := none },
         .print_completed { id := "a1", status := .completed, retryCount := 0, error := none },
         .print_started { id := "a2", status := .printing, retryCount := 0, error := none },
         .print_completed { id := "a2", status := .completed, retryCount := 0, error := none },
         .print_started { id := "a3", status := .printing, retryCount := 0, error := none },
         .print_completed { id := "a3", status := .completed, retryCount := 0, error := none }]
    ∧ (∀ s' ∈ Orch.emittedStates evs, Orch.printingCount s' ≤ 1)
    ∧ q4.1.printQueue = []
    ∧ q4.1.status = .connected) := by
  refine ⟨by decide, by decide, by decide, ?_⟩
  exact fifo_queue_drain ⟨"p1", 80⟩ "a1" "a2" "a3" (by decide) (by decide) (by decide)

namespace Orch

/-- Atomic operations on orchestrator state, at the granularity of the
code's suspension points: `executePrintJob` is split into its start phase
(before `await sendToPrinter`) and its finish phase (after the await), since
`disconnect` can run between them on the event loop.  `connect` is kept
atomic because its transient `connecting` status is unconstrained by the
state invariant. -/
inductive Op where
  | opConnectOk (c : PrinterConfig)
  | opConnectFail (msg : String)
  | opDisconnect
  | opAddJob (jobId : String)
  | opStartJob (jobId : String)
  | opFinishJob (jobId : String) (outcome : SendOutcome)
  | opClearQueue

/-- One atomic operation; `none` when the operation's preconditions (the
guards the code checks before reaching that program point) do not hold.
`opStartJob` requires the drain guards of `processQueue`
(PrinterService.ts:414, 424): status `connected` and a profile set, and a
pending job; `opFinishJob` requires that job to be in flight (`printing`). -/
def runOp : Op → PState → Option PState
  | .opConnectOk c, s =>
    some { s with status := .connected, connectedPrinter := some c, lastError := none }
  | .opConnectFail msg, s =>
    some { s with status := .error, lastError := some msg }
  | .opDisconnect, s =>
    if s.connectedPrinter = none then some s
    else some { s with status := .disconnected, connectedPrinter := none }
  | .opAddJob jid, s =>
    some { s with printQueue :=
      s.printQueue ++ [{ id := jid, status := .pending, retryCount := 0, error := none }] }
  | .opStartJob jid, s =>
    if s.status = .connected ∧ s.connectedPrinter ≠ none ∧
        (∃ j ∈ s.printQueue, j.id = jid ∧ j.status = .pending) then
      some { s with
              status := .printing,
              printQueue := s.printQueue.map fun q =>
                if q.id = jid then { q with status := .printing } else q }
    else none
  | .opFinishJob jid outcome, s =>
    match s.printQueue.find? fun q => decide (q.id = jid) with
    | none => none
    | some j =>
      if j.status = .printing then
        match outcome with
        | .ok _ =>
          some { s with
                  status := .connected,
                  printQueue := s.printQueue.filter fun q => q.id ≠ jid }
        | .error e =>
          if j.retryCount + 1 < 3 then
            some { s with
                    status := .connected,
                    printQueue := s.printQueue.map fun q =>
                      if q.id = jid then
                        { q with
                            status := .pending, retryCount := q.retryCount + 1,
                            error := some e }
                      else q }
          else
            some { s with
                    status := .connected,
                    printQueue := s.printQueue.filter fun q => q.id ≠ jid }
      else none
  | .opClearQueue, s =>
    some { s with printQueue := s.printQueue.filter fun j => j.status = .printing }

/-- Run a sequence of atomic operations. -/
def runOps : List Op → PState → Option PState
  | [], s => some s
  | op :: ops, s => (runOp op s).bind (runOps ops)

/-- The initial orchestrator state (PrinterService.ts:34-40). -/
def initState : PState :=
  { status := .disconnected, connectedPrinter := none, printQueue := [],
    lastError := none, isProcessingQueue := false }

/-- The state invariant claimed for the orchestrator: `connected`/`printing`
only with a profile reference set, `disconnected` only with none. -/
def StateInv (s : PState) : Prop :=
  ((s.status = .connected ∨ s.status = .printing) → s.connectedPrinter ≠ none)
  ∧ (s.status = .disconnected → s.connectedPrinter = none)

/-- Guard of the amended claim: `disconnect` is not invoked while a job is
in flight. -/
def opGuard (s : PState) : Op → Bool
  | .opDisconnect => s.printQueue.all fun j => j.status ≠ .printing
  | _ => true

/-- Run a sequence of atomic operations under the amended claim's guard. -/
def runOpsGuarded : List Op → PState → Option PState
  | [], s => some s
  | op :: ops, s =>
    if opGuard s op then (runOp op s).bind (runOpsGuarded ops) else none

/-- The interleaving that breaks the invariant: connect, submit a job, start
it, disconnect while the send is in flight, then the send fails. -/
def cexOps : List Op :=
  [.opConnectOk { id := "p1", paperWidth := 80 },
   .opAddJob "j1",
   .opStartJob "j1",
   .opDisconnect,
   .opFinishJob "j1" (.error "send failed")]

end Orch

/-- C8 counterexample: after connect, job submission, job start, a
disconnect during the in-flight send and the send's failure, the failure
branch of `executePrintJob` sets the status back to `connected` although the
profile reference was cleared by the disconnect: the reachable final state
has status `connected` and no connected printer, violating the claimed
invariant. -/
theorem connection_invariant_cex :
    (Orch.runOps Orch.cexOps Orch.initState).map
        (fun s => (s.status, s.connectedPrinter, Orch.StateInv s))
      = some (Orch.PrinterStatus.connected, none, Orch.StateInv
          { status := .connected, connectedPrinter := none,
            printQueue := [{ id := "j1", status := .pending, retryCount := 1,
                             error := some "send failed" }],
            lastError := none, isProcessingQueue := false })
    ∧ ¬ Orch.StateInv
        { status := .connected, connectedPrinter := none,
          printQueue := [{ id := "j1", status := .pending, retryCount := 1,
                           error := some "send failed" }],
          lastError := none, isProcessingQueue := false } := by
  constructor
  · rfl
  · intro hinv
    exact hinv.1 (Or.inl rfl) rfl

namespace Orch

/-- Auxiliary strengthening of `StateInv`: an in-flight (printing) job also
implies a profile reference. -/
def StateInvAux (s : PState) : Prop :=
  StateInv s ∧ ((∃ j ∈ s.printQueue, j.status = .printing) → s.connectedPrinter ≠ none)

theorem stateInvAux_runOp (op : Op) (s s' : PState) (hg : opGuard s op = true)
    (hrun : runOp op s = some s') (hinv : StateInvAux s) : StateInvAux s' := by
  cases op with
  | opConnectOk c =>
    simp only [runOp] at hrun
    injection hrun with hrun
    subst hrun
    exact ⟨⟨fun _ => by simp, fun h => by simp at h⟩, fun _ => by simp⟩
  | opConnectFail msg =>
    simp only [runOp] at hrun
    injection hrun with hrun
    subst hrun
    refine ⟨⟨fun h => by simp at h, fun h => by simp at h⟩, fun h => ?_⟩
    exact hinv.2 h
  | opDisconnect =>
    simp only [runOp, opGuard] at hrun hg
    split at hrun
    · injection hrun with hrun
      subst hrun
      exact hinv
    · injection hrun with hrun
      subst hrun
      refine ⟨⟨fun h => by simp at h, fun _ => rfl⟩, fun h => ?_⟩
      obtain ⟨j, hj, hjp⟩ := h
      simp only [List.all_eq_true] at hg
      have := hg j hj
      simp [hjp] at this
  | opAddJob jid =>
    simp only [runOp] at hrun
    injection hrun with hrun
    subst hrun
    refine ⟨⟨fun h => hinv.1.1 (by simpa using h), fun h => hinv.1.2 (by simpa using h)⟩,
      fun h => ?_⟩
    obtain ⟨j, hj, hjp⟩ := h
    simp only [List.mem_append, List.mem_singleton] at hj
    rcases hj with hj | hj
    · exact hinv.2 ⟨j, hj, hjp⟩
    · subst hj
      simp at hjp
  | opStartJob jid =>
    simp only [runOp] at hrun
    split at hrun
    case isTrue hpre =>
      injection hrun with hrun
      subst hrun
      exact ⟨⟨fun _ => by simpa using hpre.2.1, fun h => by simp at h⟩,
        fun _ => by simpa using hpre.2.1⟩
    case isFalse => exact absurd hrun (by simp)
  | opFinishJob jid outcome =>
    simp only [runOp] at hrun
    split at hrun
    next => simp at hrun
    next j hfind =>
      split at hrun
      next hjp =>
        have hmem : j ∈ s.printQueue := List.mem_of_find?_eq_some hfind
        have hprinter : s.connectedPrinter ≠ none := hinv.2 ⟨j, hmem, hjp⟩
        cases outcome with
        | ok u =>
          simp only [Option.some.injEq] at hrun
          subst hrun
          exact ⟨⟨fun _ => by simpa using hprinter, fun h => by simp at h⟩,
            fun _ => by simpa using hprinter⟩
        | error e =>
          simp only [] at hrun
          split at hrun <;>
          · simp only [Option.some.injEq] at hrun
            subst hrun
            exact ⟨⟨fun _ => by simpa using hprinter, fun h => by simp at h⟩,
              fun _ => by simpa using hprinter⟩
      next => exact absurd hrun (by simp)
  | opClearQueue =>
    simp only [runOp] at hrun
    injection hrun with hrun
    subst hrun
    refine ⟨⟨fun h => hinv.1.1 (by simpa using h), fun h => hinv.1.2 (by simpa using h)⟩,
      fun h => ?_⟩
    obtain ⟨j, hj, hjp⟩ := h
    exact hinv.2 ⟨j, (List.mem_filter.mp hj).1, hjp⟩

theorem stateInvAux_runOpsGuarded :
    ∀ (ops : List Op) (s s' : PState),
      runOpsGuarded ops s = some s' → StateInvAux s → StateInvAux s' := by
  intro ops
  induction ops with
  | nil =>
    intro s s' h hinv
    simp only [runOpsGuarded] at h
    injection h with h
    subst h
    exact hinv
  | cons op ops ih =>
    intro s s' h hinv
    simp only [runOpsGuarded] at h
    split at h
    case isTrue hg =>
      cases hrun : runOp op s with
      | none => rw [hrun] at h; simp at h
      | some s1 =>
        rw [hrun] at h
        simp only [Option.some_bind] at h
        exact ih s1 s' h (stateInvAux_runOp op s s1 hg hrun hinv)
    case isFalse => simp at h

/-- A guarded witness trace: connect, submit, start, finish successfully,
then disconnect (no job in flight). -/
def witOps : List Op :=
  [.opConnectOk { id := "p1", paperWidth := 80 },
   .opAddJob "j1",
   .opStartJob "j1",
   .opFinishJob "j1" (.ok ()),
   .opDisconnect]

end Orch

/-- C8 amended: the invariant — status `connected`/`printing` only while a
profile reference is set, `disconnected` only while none — holds in every
state reachable by atomic operations provided `disconnect` is never invoked
while a job is in flight; without that proviso the failure (and success)
branch of per-job execution can restore status `connected` after the
profile was cleared (see the counterexample). -/
theorem connection_invariant_guarded (ops : List Orch.Op) (s : Orch.PState)
    (h : Orch.runOpsGuarded ops Orch.initState = some s) :
    ((s.status = .connected ∨ s.status = .printing) → s.connectedPrinter ≠ none)
    ∧ (s.status = .disconnected → s.connectedPrinter = none) := by
  have hinit : Orch.StateInvAux Orch.initState := by
    refine ⟨⟨fun h => ?_, fun _ => rfl⟩, fun h => ?_⟩
    · rcases h with h | h <;> cases h
    · obtain ⟨j, hj, _⟩ := h
      cases hj
  exact (Orch.stateInvAux_runOpsGuarded ops Orch.initState s h hinit).1

/-- Witness for `connection_invariant_guarded` on a concrete guarded trace. -/
theorem connection_invariant_guarded_witness :
    (Orch.runOpsGuarded Orch.witOps Orch.initState = some Orch.initState)
    ∧ (((Orch.initState.status = .connected ∨ Orch.initState.status = .printing) →
          Orch.initState.connectedPrinter ≠ none)
      ∧ (Orch.initState.status = .disconnected →
          Orch.initState.connectedPrinter = none)) :=
  ⟨by decide, connection_invariant_guarded Orch.witOps Orch.initState (by decide)⟩

namespace Storage

/-- The profile fields the storage logic reads
(`src/types/printer.ts`, `PrinterConfig`). -/
structure PrinterConfig where
  id : String
  isDefault : Bool
deriving DecidableEq, Repr

/-- `PrinterStorageService.setDefaultPrinter` (PrinterStorage.ts:91-105):
rewrite every stored profile's default flag to whether its id matches. -/
def setDefaultPrinter (printerId : String) (printers : List PrinterConfig) :
    List PrinterConfig :=
  printers.map fun p => { p with isDefault := decide (p.id = printerId) }

/-- `PrinterStorageService.savePrinter` (PrinterStorage.ts:34-55): replace
the profile at the first index with the same id, or append; then, when the
saved profile carries the default flag, rewrite all defaults via
`setDefaultPrinter`. -/
def savePrinter (printer : PrinterConfig) (printers : List PrinterConfig) :
    List PrinterConfig :=
  let updated :=
    match printers.findIdx? fun p => decide (p.id = printer.id) with
    | some i => printers.set i printer
    | none => printers ++ [printer]
  if printer.isDefault then setDefaultPrinter printer.id updated else updated

/-- `PrinterStorageService.deletePrinter` (PrinterStorage.ts:72-87), the
profile-list transformation. -/
def deletePrinter (id : String) (printers : List PrinterConfig) :
    List PrinterConfig :=
  printers.filter fun p => decide (p.id ≠ id)

/-- Number of stored profiles with the default flag set. -/
def countDefaults (printers : List PrinterConfig) : Nat :=
  (printers.filter fun p => p.isDefault).length

/-- Recursive characterization of the replace-or-append step of
`savePrinter`. -/
def replaceOrAppend (printer : PrinterConfig) :
    List PrinterConfig → List PrinterConfig
  | [] => [printer]
  | q :: rest =>
    if q.id = printer.id then printer :: rest
    else q :: replaceOrAppend printer rest

theorem savePrinter_step_eq (p : PrinterConfig) :
    ∀ ps : List PrinterConfig,
      (match ps.findIdx? fun q => decide (q.id = p.id) with
        | some i => ps.set i p
        | none => ps ++ [p]) = replaceOrAppend p ps := by
  intro ps
  induction ps with
  | nil => rfl
  | cons q rest ih =>
    rw [List.findIdx?_cons, List.findIdx?_succ]
    by_cases h : q.id = p.id
    · simp [h, replaceOrAppend]
    · simp only [replaceOrAppend, if_neg h, h, decide_False, Bool.false_eq_true,
        if_false]
      cases hfi : rest.findIdx? (fun r => decide (r.id = p.id)) with
      | none =>
        rw [hfi] at ih
        simpa using ih
      | some i =>
        rw [hfi] at ih
        simpa using ih

theorem countDefaults_setDefault (pid : String) :
    ∀ ps : List PrinterConfig,
      countDefaults (setDefaultPrinter pid ps)
        = (ps.filter fun q => decide (q.id = pid)).length := by
  intro ps
  induction ps with
  | nil => rfl
  | cons q rest ih =>
    have step : setDefaultPrinter pid (q :: rest)
        = { q with isDefault := decide (q.id = pid) } :: setDefaultPrinter pid rest :=
      rfl
    rw [step]
    simp only [countDefaults, List.filter_cons] at ih ⊢
    by_cases h : q.id = pid
    · simp [h, ih]
    · simp [h, ih]

theorem filter_id_length (pid : String) :
    ∀ ps : List PrinterConfig, (ps.map fun q => q.id).Nodup →
      ((ps.filter fun q => decide (q.id = pid)).length ≤ 1
        ∧ ((pid ∈ ps.map fun q => q.id) →
            (ps.filter fun q => decide (q.id = pid)).length = 1)) := by
  intro ps
  induction ps with
  | nil => exact fun _ => ⟨by simp, by simp⟩
  | cons q rest ih =>
    intro hnodup
    rw [List.map_cons, List.nodup_cons] at hnodup
    obtain ⟨hq, hrest⟩ := hnodup
    obtain ⟨ihle, ihmem⟩ := ih hrest
    by_cases h : q.id = pid
    · have hnone : (rest.filter fun r => decide (r.id = pid)).length = 0 := by
        rw [List.length_eq_zero]
        rw [List.filter_eq_nil_iff]
        intro r hr
        simp only [decide_eq_true_eq]
        intro hrid
        exact hq (by rw [← h] at hrid; rw [← hrid]; exact List.mem_map_of_mem _ hr)
      constructor
      · simp [List.filter_cons, h, hnone]
      · intro _
        simp [List.filter_cons, h, hnone]
    · constructor
      · simp only [List.filter_cons, h, decide_eq_true_eq, if_neg h]
        exact ihle
      · intro hmem
        simp only [List.mem_map] at hmem
        obtain ⟨r, hr, hrid⟩ := hmem
        rcases List.mem_cons.mp hr with hr | hr
        · exact absurd (hr ▸ hrid) h
        · simp only [List.filter_cons, decide_eq_true_eq, if_neg h]
          exact ihmem (by rw [← hrid]; exact List.mem_map_of_mem _ hr)

theorem replaceOrAppend_id_filter (p : PrinterConfig) :
    ∀ ps : List PrinterConfig, (ps.map fun q => q.id).Nodup →
      ((replaceOrAppend p ps).filter fun q => decide (q.id = p.id)).length = 1 := by
  intro ps
  induction ps with
  | nil => simp [replaceOrAppend]
  | cons q rest ih =>
    intro hnodup
    rw [List.map_cons, List.nodup_cons] at hnodup
    obtain ⟨hq, hrest⟩ := hnodup
    by_cases h : q.id = p.id
    · have hnone : (rest.filter fun r => decide (r.id = p.id)).length = 0 := by
        rw [List.length_eq_zero, List.filter_eq_nil_iff]
        intro r hr
        simp only [decide_eq_true_eq]
        intro hrid
        exact hq (by rw [← h] at hrid; rw [← hrid]; exact List.mem_map_of_mem _ hr)
      simp [replaceOrAppend, h, List.filter_cons, hnone]
    · simp only [replaceOrAppend, if_neg h, List.filter_cons, decide_eq_true_eq,
        if_neg h]
      exact ih hrest

theorem replaceOrAppend_defaults_le (p : PrinterConfig) (hp : p.isDefault = false) :
    ∀ ps : List PrinterConfig,
      countDefaults (replaceOrAppend p ps) ≤ countDefaults ps := by
  intro ps
  induction ps with
  | nil => simp [replaceOrAppend, countDefaults, hp]
  | cons q rest ih =>
    by_cases h : q.id = p.id
    · simp only [replaceOrAppend, if_pos h, countDefaults, List.filter_cons, hp]
      cases hqd : q.isDefault <;> simp
    · simp only [replaceOrAppend, if_neg h, countDefaults, List.filter_cons]
      cases hqd : q.isDefault <;> simp
      · exact ih
      · exact ih

end Storage

/-- C9 counterexample: `setDefault(id)` with an id not present in the store
leaves *zero* profiles with the default flag, not exactly one: the claim
fails for absent ids. -/
theorem setDefault_absent_id_cex :
    Storage.setDefaultPrinter "x" [{ id := "a", isDefault := true }]
      = [{ id := "a", isDefault := false }]
    ∧ Storage.countDefaults
        (Storage.setDefaultPrinter "x" [{ id := "a", isDefault := true }]) = 0 := by
  constructor
  · rfl
  · rfl

/-- C9 amended: for stores whose profile ids are pairwise distinct (as the
service produces them), every profile flagged default after `setDefault(id)`
has that id, at most one profile is flagged, and exactly one is flagged when
`id` is present in the store; the at-most-one-default invariant is preserved
by `savePrinter` and `deletePrinter`. -/
theorem default_profile_invariant (ps : List Storage.PrinterConfig) (pid : String)
    (p : Storage.PrinterConfig) (hnodup : (ps.map fun q => q.id).Nodup) :
    (∀ q ∈ Storage.setDefaultPrinter pid ps, q.isDefault = true → q.id = pid)
    ∧ Storage.countDefaults (Storage.setDefaultPrinter pid ps) ≤ 1
    ∧ ((pid ∈ ps.map fun q => q.id) →
        Storage.countDefaults (Storage.setDefaultPrinter pid ps) = 1)
    ∧ (Storage.countDefaults ps ≤ 1 →
        Storage.countDefaults (Storage.savePrinter p ps) ≤ 1)
    ∧ Storage.countDefaults (Storage.deletePrinter pid ps)
        ≤ Storage.countDefaults ps := by
  obtain ⟨hle, hmem⟩ := Storage.filter_id_length pid ps hnodup
  refine ⟨?_, ?_, ?_, ?_, ?_⟩
  · intro q hq hdef
    simp only [Storage.setDefaultPrinter, List.mem_map] at hq
    obtain ⟨r, _, rfl⟩ := hq
    simpa using hdef
  · rw [Storage.countDefaults_setDefault]
    exact hle
  · intro hin
    rw [Storage.countDefaults_setDefault]
    exact hmem hin
  · intro hcount
    unfold Storage.savePrinter
    rw [Storage.savePrinter_step_eq]
    cases hpd : p.isDefault with
    | true =>
      simp only [if_true]
      rw [Storage.countDefaults_setDefault]
      rw [Storage.replaceOrAppend_id_filter p ps hnodup]
    | false =>
      simp only [Bool.false_eq_true, if_false]
      exact le_trans (Storage.replaceOrAppend_defaults_le p hpd ps) hcount
  · unfold Storage.countDefaults Storage.deletePrinter
    exact ((List.filter_sublist _).filter _).length_le

/-- Witness for `default_profile_invariant` at a concrete store. -/
theorem default_profile_invariant_witness :
    (([{ id := "a", isDefault := true }, { id := "b", isDefault := false }]
        : List Storage.PrinterConfig).map fun q => q.id).Nodup
    ∧ ((∀ q ∈ Storage.setDefaultPrinter "b"
          [{ id := "a", isDefault := true }, { id := "b", isDefault := false }],
          q.isDefault = true → q.id = "b")
      ∧ Storage.countDefaults (Storage.setDefaultPrinter "b"
          [{ id := "a", isDefault := true }, { id := "b", isDefault := false }]) ≤ 1
      ∧ (("b" ∈ ([{ id := "a", isDefault := true }, { id := "b", isDefault := false }]
            : List Storage.PrinterConfig).map fun q => q.id) →
          Storage.countDefaults (Storage.setDefaultPrinter "b"
            [{ id := "a", isDefault := true }, { id := "b", isDefault := false }]) = 1)
      ∧ (Storage.countDefaults
            ([{ id := "a", isDefault := true }, { id := "b", isDefault := false }]
              : List Storage.PrinterConfig) ≤ 1 →
          Storage.countDefaults (Storage.savePrinter { id := "c", isDefault := true }
            [{ id := "a", isDefault := true }, { id := "b", isDefault := false }]) ≤ 1)
      ∧ Storage.countDefaults (Storage.deletePrinter "b"
            [{ id := "a", isDefault := true }, { id := "b", isDefault := false }])
          ≤ Storage.countDefaults
            ([{ id := "a", isDefault := true }, { id := "b", isDefault := false }]
              : List Storage.PrinterConfig)) := by
  constructor
  · decide
  · exact default_profile_invariant
      [{ id := "a", isDefault := true }, { id := "b", isDefault := false }] "b"
      { id := "c", isDefault := true } (by decide)

namespace Snap

/-- A state *object* as it lives on the JS heap: the top-level fields of
`PrinterState` the claims need; `printQueue` holds a *reference* to an array
cell, which is what a spread copy duplicates.  (`connectedPrinter` and
`availableDevices` behave like `printQueueRef`; one nested reference
suffices to settle the claim.) -/
structure StateObj where
  status : Orch.PrinterStatus
  printQueueRef : Nat
  lastError : Option String
deriving DecidableEq, Repr

/-- The service with its heap: array cells (queues of job ids), object
cells, and the `this.state` reference. -/
structure Service where
  arrays : List (List String)
  objs : List StateObj
  stateRef : Nat
deriving DecidableEq, Repr

/-- Dereference an object. -/
def getObj (svc : Service) (r : Nat) : StateObj :=
  svc.objs.getD r { status := .disconnected, printQueueRef := 0, lastError := none }

/-- Dereference an array. -/
def getArr (svc : Service) (r : Nat) : List String :=
  svc.arrays.getD r []

/-- `PrinterServiceClass.getState` (PrinterService.ts:78-80):
`return { ...this.state }` allocates a fresh object whose fields are copied
from `this.state` — including the `printQueue` array *reference* (spread is
a shallow copy).  Returns the new service heap and the delivered object's
reference. -/
def getState (svc : Service) : Service × Nat :=
  let snapshot := getObj svc svc.stateRef
  ({ svc with objs := svc.objs ++ [snapshot] }, svc.objs.length)

/-- `PrinterServiceClass.updateState` (PrinterService.ts:82-85) for a status
update: `this.state = { ...this.state, ...updates }` allocates a new object
and repoints `this.state`; previously allocated objects are untouched. -/
def updateStateStatus (svc : Service) (st : Orch.PrinterStatus) : Service :=
  let cur := getObj svc svc.stateRef
  let obj : StateObj := { cur with status := st }
  { svc with objs := svc.objs ++ [obj], stateRef := svc.objs.length }

/-- The queue push of `addPrintJob` (PrinterService.ts:386):
`this.state.printQueue.push(job)` mutates the array cell in place; no object
is allocated and `this.state` is not repointed. -/
def pushJob (svc : Service) (jobId : String) : Service :=
  let r := (getObj svc svc.stateRef).printQueueRef
  { svc with arrays := svc.arrays.set r (getArr svc r ++ [jobId]) }

end Snap

/-- The concrete initial heap used by the C10 counterexample and witness:
one state object pointing at one (empty) queue array. -/
def Snap.svc0 : Snap.Service :=
  { arrays := [[]]
    objs := [{ status := .connected, printQueueRef := 0, lastError := none }]
    stateRef := 0 }

/-- C10 counterexample: `getState` is only a shallow copy.  After taking a
snapshot, the internal in-place queue push of `addPrintJob` changes what the
previously delivered snapshot observes as its `printQueue` (from `[]` to
`["j1"]`), because the snapshot shares the array reference with the internal
state — refuting "later internal mutations do not change a previously
delivered value". -/
theorem snapshot_shallow_copy_cex :
    Snap.getArr (Snap.getState Snap.svc0).1
        (Snap.getObj (Snap.getState Snap.svc0).1
          (Snap.getState Snap.svc0).2).printQueueRef
      = []
    ∧ Snap.getArr (Snap.pushJob (Snap.getState Snap.svc0).1 "j1")
        (Snap.getObj (Snap.pushJob (Snap.getState Snap.svc0).1 "j1")
          (Snap.getState Snap.svc0).2).printQueueRef
      = ["j1"] := by
  constructor
  · rfl
  · rfl

/-- C10 amended: the copy made by `getState` is shallow.  The delivered
object's top-level fields are genuinely copied: they equal the internal
state's fields at snapshot time and are unaffected by a later `updateState`
(which allocates a fresh internal object).  But the `printQueue` array
reference is shared between the snapshot and the internal state, so in-place
queue mutations remain visible through the snapshot (see the counterexample).
-/
theorem getState_shallow_copy (svc : Snap.Service) (st : Orch.PrinterStatus)
    (href : svc.stateRef < svc.objs.length) :
    Snap.getObj (Snap.getState svc).1 (Snap.getState svc).2
      = Snap.getObj svc svc.stateRef
    ∧ Snap.getObj (Snap.updateStateStatus (Snap.getState svc).1 st) (Snap.getState svc).2
      = Snap.getObj svc svc.stateRef
    ∧ (Snap.getObj (Snap.updateStateStatus (Snap.getState svc).1 st)
        (Snap.updateStateStatus (Snap.getState svc).1 st).stateRef).status = st
    ∧ (Snap.getObj (Snap.updateStateStatus (Snap.getState svc).1 st)
        (Snap.getState svc).2).printQueueRef
      = (Snap.getObj (Snap.updateStateStatus (Snap.getState svc).1 st)
          (Snap.updateStateStatus (Snap.getState svc).1 st).stateRef).printQueueRef := by
  have hsnap : Snap.getObj (Snap.getState svc).1 (Snap.getState svc).2
      = Snap.getObj svc svc.stateRef := by
    simp only [Snap.getState, Snap.getObj]
    rw [List.getD_append_right _ _ _ _ (le_refl _)]
    simp
  have hcur : Snap.getObj (Snap.getState svc).1 ((Snap.getState svc).1).stateRef
      = Snap.getObj svc svc.stateRef := by
    simp only [Snap.getState, Snap.getObj]
    rw [List.getD_append _ _ _ _ href]
  have hmid : Snap.getObj (Snap.updateStateStatus (Snap.getState svc).1 st)
      (Snap.getState svc).2 = Snap.getObj svc svc.stateRef := by
    rw [← hsnap]
    simp only [Snap.updateStateStatus, Snap.getObj]
    rw [List.getD_append]
    simp [Snap.getState]
  have hnew : Snap.getObj (Snap.updateStateStatus (Snap.getState svc).1 st)
      (Snap.updateStateStatus (Snap.getState svc).1 st).stateRef
      = { Snap.getObj svc svc.stateRef with status := st } := by
    simp only [Snap.updateStateStatus]
    rw [hcur]
    simp only [Snap.getObj]
    rw [List.getD_append_right _ _ _ _ (le_refl _)]
    simp
  refine ⟨hsnap, hmid, ?_, ?_⟩
  · rw [hnew]
  · rw [hmid, hnew]

/-- Witness for `getState_shallow_copy` on a concrete heap. -/
theorem getState_shallow_copy_witness :
    Snap.svc0.stateRef < Snap.svc0.objs.length
    ∧ (Snap.getObj (Snap.getState Snap.svc0).1 (Snap.getState Snap.svc0).2
        = Snap.getObj Snap.svc0 Snap.svc0.stateRef
      ∧ Snap.getObj (Snap.updateStateStatus (Snap.getState Snap.svc0).1 .printing)
          (Snap.getState Snap.svc0).2
        = Snap.getObj Snap.svc0 Snap.svc0.stateRef
      ∧ (Snap.getObj (Snap.updateStateStatus (Snap.getState Snap.svc0).1 .printing)
          (Snap.updateStateStatus (Snap.getState Snap.svc0).1 .printing).stateRef).status
        = .printing
      ∧ (Snap.getObj (Snap.updateStateStatus (Snap.getState Snap.svc0).1 .printing)
          (Snap.getState Snap.svc0).2).printQueueRef
        = (Snap.getObj (Snap.updateStateStatus (Snap.getState Snap.svc0).1 .printing)
            (Snap.updateStateStatus (Snap.getState Snap.svc0).1 .printing).stateRef).printQueueRef) :=
  ⟨by decide, getState_shallow_copy Snap.svc0 .printing (by decide)⟩
